import Mathlib

/-!
# Verification of `leptos-declarative` (branch selector and portal registry)

Shallow embedding of the two mechanisms of the repository:

* `src/if_.rs` — the `<If>/<Then>/<ElseIf>/<Else>` branch selector.  Signals
  are modelled by a valuation `σ : Nat → Bool` over signal identifiers; the
  rendered content of a block is an abstract value of type `α` produced by its
  `children` closure.  The stateful render closure (lines 145–184 of
  `if_.rs`) becomes an explicit state-passing function `evalPass`; the
  `next().unwrap()` panic point is modelled by `Option`.

* `src/portal.rs` — the portal registry.  The registry
  `Vec<(TypeId, RwSignal<Option<Children>>)>` becomes a list of
  `(TypeId, Option β)` pairs threaded through the operations; a Rust `id`
  value is a `RustValue` carrying its runtime `TypeId` and a payload, of
  which the code only ever reads the `TypeId`.  A missing `PortalProvider`
  context is modelled with `Except String`.
-/

namespace LeptosDeclarative

/-! ## `if_.rs` : data model -/

/-- `IfBlock` from `if_.rs` (lines 225–243): the tagged block returned by the
`Then` / `ElseIf` / `Else` components.  `ElseIf` carries the identifier of its
(memoised) boolean signal; every variant carries its `children` closure, which
renders to a content value of type `α`. -/
inductive IfBlock (α : Type) where
  | If (children : Unit → α)
  | ElseIf (signal : Nat) (children : Unit → α)
  | Else (children : Unit → α)

namespace IfBlock

variable {α : Type}

/-- `IfBlock::is_if` (lines 254–256). -/
def is_if : IfBlock α → Bool
  | .If _ => true
  | _ => false

/-- `IfBlock::is_else` (lines 258–260). -/
def is_else : IfBlock α → Bool
  | .Else _ => true
  | _ => false

/-- `IfBlock::is_true` (lines 246–252): an `ElseIf` is true when its signal
reads true under the valuation `σ`; otherwise the block is true iff it is the
`Else` block. -/
def is_true (σ : Nat → Bool) : IfBlock α → Bool
  | .ElseIf s _ => σ s
  | b => b.is_else

/-- `IfBlock::render` (lines 262–268): invoke the block's `children` closure. -/
def render : IfBlock α → α
  | .If c => c ()
  | .ElseIf _ c => c ()
  | .Else c => c ()

end IfBlock

variable {α : Type}

/-- The interior state of the render closure of `If` (lines 142–143): the
`last_rendered_block` cell and the `child` cell.  `child = none` models the
unit view `().into_view()`. -/
structure IfState (α : Type) where
  last_rendered_block : Option Nat
  child : Option α

/-- The signals subscribed by the loop at lines 151–156 of `if_.rs`: every
`ElseIf` block among the blocks after the first is tracked, before and
independently of the branch scan. -/
def trackedSignals (blocks : List (IfBlock α)) : List Nat :=
  (blocks.drop 1).filterMap fun b =>
    match b with
    | .ElseIf s _ => some s
    | _ => none

/-- `enumerate().find(|(_, block)| block.is_true())` starting at index `i`
(line 166 of `if_.rs`). -/
def findTrueFrom (σ : Nat → Bool) (i : Nat) : List (IfBlock α) → Option (Nat × IfBlock α)
  | [] => none
  | b :: rest => if b.is_true σ then some (i, b) else findTrueFrom σ (i + 1) rest

/-- The outcome of one run of the render closure. -/
structure PassResult (α : Type) where
  state : IfState α
  view : Option α
  rendered : Option Nat
  tracked : List Nat

/-- One run of the render closure of `If` (lines 145–184).  `primary` is the
current value of the memoised `signal` prop; `σ` values the `ElseIf` signals;
`st` is the content of the two cells.  Returns `none` exactly where the Rust
code panics (`if_blocks.next().unwrap()` on an empty block list).  `rendered`
records which block's `render()` closure was invoked during the pass, if
any. -/
def evalPass (blocks : List (IfBlock α)) (primary : Bool) (σ : Nat → Bool)
    (st : IfState α) : Option (PassResult α) :=
  if primary then
    if st.last_rendered_block = some 0 then
      some ⟨st, st.child, none, trackedSignals blocks⟩
    else
      match blocks.head? with
      | none => none
      | some b =>
        some ⟨⟨some 0, some b.render⟩, some b.render, some 0, trackedSignals blocks⟩
  else
    match findTrueFrom σ 0 blocks with
    | some (i, b) =>
      if st.last_rendered_block = some i then
        some ⟨st, st.child, none, trackedSignals blocks⟩
      else
        some ⟨⟨some i, some b.render⟩, some b.render, some i, trackedSignals blocks⟩
    | none => some ⟨⟨none, none⟩, none, none, trackedSignals blocks⟩

/-- The branch index the closure selects, extracted from the control flow of
lines 158–178: index 0 when the primary signal is true, otherwise the index
found by the `is_true` scan. -/
def codeSelect (blocks : List (IfBlock α)) (primary : Bool) (σ : Nat → Bool) : Option Nat :=
  if primary then some 0
  else (findTrueFrom σ 0 blocks).map Prod.fst

/-- Index of the first true `Alternative` (`ElseIf`) at or after position `i`,
following the spec's scan of Alternatives in declaration order. -/
def findAltFrom (σ : Nat → Bool) (i : Nat) : List (IfBlock α) → Option Nat
  | [] => none
  | .ElseIf s _ :: rest => if σ s then some i else findAltFrom σ (i + 1) rest
  | _ :: rest => findAltFrom σ (i + 1) rest

/-- Index of the first `Fallback` (`Else`) block at or after position `i`. -/
def findElseFrom (i : Nat) : List (IfBlock α) → Option Nat
  | [] => none
  | .Else _ :: _ => some i
  | _ :: rest => findElseFrom (i + 1) rest

/-- The branch-selection rule as the spec words it: Primary (index 0) when the
primary condition is true; otherwise the first Alternative whose condition is
true; otherwise the Fallback when present; otherwise nothing. -/
def selectSpec (blocks : List (IfBlock α)) (primary : Bool) (σ : Nat → Bool) : Option Nat :=
  if primary then some 0
  else
    match findAltFrom σ 0 blocks with
    | some i => some i
    | none => findElseFrom 0 blocks

/-- A tail of a branch-block list that consists of `ElseIf` blocks followed by
at most one final `Else` block. -/
def isAltsThenElse : List (IfBlock α) → Bool
  | [] => true
  | .If _ :: _ => false
  | .ElseIf _ _ :: rest => isAltsThenElse rest
  | .Else _ :: rest => rest.isEmpty

/-- A well-formed branch set: one `Then` block first, then `ElseIf` blocks,
then an optional final `Else` block. -/
def wfBlocks : List (IfBlock α) → Bool
  | [] => false
  | b :: rest => b.is_if && isAltsThenElse rest

/-- `iter().position(p)` starting the count at `i`. -/
def positionFrom (p : IfBlock α → Bool) (i : Nat) : List (IfBlock α) → Option Nat
  | [] => none
  | b :: rest => if p b then some i else positionFrom p (i + 1) rest

/-- `run_debug_checks` (lines 277–310 of `if_.rs`) as a boolean: `false` when
one of its assertions fires (the leading `next().unwrap()` on an empty block
list also fails fast, and is likewise modelled as `false`).  The four checks:
the first block is the `Then` block; there is exactly one `Then` block; the
first `Else` block, when present, sits at the last position; there is at most
one `Else` block. -/
def run_debug_checks (blocks : List (IfBlock α)) : Bool :=
  (match blocks.head? with
   | some b => b.is_if
   | none => false)
  && (blocks.countP IfBlock.is_if == 1)
  && (match positionFrom IfBlock.is_else 0 blocks with
      | some pos => pos == blocks.length - 1
      | none => true)
  && decide (blocks.countP IfBlock.is_else ≤ 1)

/-- The body of the `If` component up to the first render (lines 139–140):
with `debug_assertions` enabled the debug checks run and a failed assertion
aborts (modelled `none`); in release builds they are compiled out and the
block list is accepted unconditionally. -/
def ifInit (debug_assertions : Bool) (blocks : List (IfBlock α)) :
    Option (List (IfBlock α)) :=
  if debug_assertions && !run_debug_checks blocks then none else some blocks

/-! ## `portal.rs` : data model -/

/-- Runtime type identity (`std::any::TypeId`). -/
abbrev TypeId := Nat

/-- A Rust value as the portal components see it: its runtime `TypeId`
together with its payload.  `portal.rs` only ever calls `id.type_id()` on the
`id` argument, never inspecting the payload. -/
structure RustValue (V : Type) where
  typeId : TypeId
  payload : V

variable {V β : Type}

/-- The registry owned by `PortalCtx` (line 45 of `portal.rs`):
`Vec<(TypeId, RwSignal<Option<Children>>)>`, with each slot's reactive cell
flattened to its current content. -/
abbrev PortalRegistry (β : Type) := List (TypeId × Option β)

/-- The keys of the registry, in order. -/
def keysOf (portals : PortalRegistry β) : List TypeId :=
  portals.map Prod.fst

/-- `iter().position(|(type_id, _)| *type_id == id.type_id())`
(lines 128–131 and 181–184 of `portal.rs`). -/
def findKeyIdx (t : TypeId) : PortalRegistry β → Option Nat
  | [] => none
  | p :: rest => if p.1 = t then some 0 else (findKeyIdx t rest).map (· + 1)

/-- `portals[pos]`: indexing into the registry. -/
def getAt? : PortalRegistry β → Nat → Option (TypeId × Option β)
  | [], _ => none
  | p :: _, 0 => some p
  | _ :: rest, n + 1 => getAt? rest n

/-- `portals[pos].1.set(c)` / the slot mutation inside `update`: replace the
content of the slot at position `pos`, keeping its key. -/
def setContentAt : PortalRegistry β → Nat → Option β → PortalRegistry β
  | [], _, _ => []
  | p :: rest, 0, c => (p.1, c) :: rest
  | p :: rest, n + 1, c => p :: setContentAt rest n c

/-- The content of the first slot whose key is `t`, when such a slot exists. -/
def lookupContent (t : TypeId) (portals : PortalRegistry β) : Option β :=
  (findKeyIdx t portals).bind fun pos => (getAt? portals pos).bind Prod.snd

/-- The body of `PortalInput` (lines 127–138 of `portal.rs`) acting on the
registry: when a slot with the id's `TypeId` exists, set its content to the
children; otherwise push a fresh slot holding the children. -/
def portalInput (id : RustValue V) (children : β) (portals : PortalRegistry β) :
    PortalRegistry β :=
  match findKeyIdx id.typeId portals with
  | some pos => setContentAt portals pos (some children)
  | none => portals ++ [(id.typeId, some children)]

/-- The body of `PortalOutput` (lines 178–205 of `portal.rs`): look up the
slot with the id's `TypeId`, pushing a fresh empty slot when absent; then
`take` the slot's content, leaving `none` behind, and render the taken
children (`none` renders as the unit view).  Returns the updated registry and
the rendered view. -/
def portalOutput (id : RustValue V) (portals : PortalRegistry β) :
    PortalRegistry β × Option β :=
  match findKeyIdx id.typeId portals with
  | some pos => (setContentAt portals pos none, (getAt? portals pos).bind Prod.snd)
  | none => (portals ++ [(id.typeId, none)], none)

/-- `CONTEXT_NOT_FOUND_ERROR_MESSAGE` (lines 40–42 of `portal.rs`). -/
def CONTEXT_NOT_FOUND_ERROR_MESSAGE : String :=
  "failed to find `PortalCtx`, make sure you are using `<PortalProvider />` somewhere near the root of the app"

/-- `PortalInput` including its `use_context::<PortalCtx>().expect(...)`
(line 125): with no provider in scope the component aborts with the fixed
message; otherwise it updates the registry. -/
def portalInputComponent (ctx : Option (PortalRegistry β)) (id : RustValue V)
    (children : β) : Except String (PortalRegistry β) :=
  match ctx with
  | none => .error CONTEXT_NOT_FOUND_ERROR_MESSAGE
  | some portals => .ok (portalInput id children portals)

/-- `PortalOutput` including its `use_context::<PortalCtx>().expect(...)`
(line 176). -/
def portalOutputComponent (ctx : Option (PortalRegistry β)) (id : RustValue V) :
    Except String (PortalRegistry β × Option β) :=
  match ctx with
  | none => .error CONTEXT_NOT_FOUND_ERROR_MESSAGE
  | some portals => .ok (portalOutput id portals)

/-- One mount of a portal component during an update pass. -/
inductive PortalOp (V β : Type) where
  | publish (id : RustValue V) (content : β)
  | consume (id : RustValue V)

/-- Run a sequence of portal component mounts against the registry, recording
the view each `consume` (a `PortalOutput` mount) produces.  A `PortalOutput`
body runs exactly once — it returns a plain view, not a reactive closure, and
reads the slot through `update`, which does not subscribe — so the view it
produced is fixed at mount time and is unaffected by later publishes. -/
def runOps : List (PortalOp V β) → PortalRegistry β → PortalRegistry β × List (Option β)
  | [], portals => (portals, [])
  | .publish id c :: rest, portals => runOps rest (portalInput id c portals)
  | .consume id :: rest, portals =>
    let out := portalOutput id portals
    let final := runOps rest out.1
    (final.1, out.2 :: final.2)


/-! ## Concrete instances used to witness the theorems -/

/-- A concrete well-formed branch set: `Then`, two `ElseIf`s (signals 1, 2) and
an `Else`, rendering the contents 10, 11, 12, 13. -/
def blocks0 : List (IfBlock Nat) :=
  [.If (fun _ => 10), .ElseIf 1 (fun _ => 11), .ElseIf 2 (fun _ => 12), .Else (fun _ => 13)]

/-- The valuation with signal 2 true and every other signal false. -/
def sigma0 : Nat → Bool := fun n => n == 2

/-- The result of running `blocks0` under `sigma0` from the initial state. -/
def passResult0 : PassResult Nat := ⟨⟨some 2, some 12⟩, some 12, some 2, [1, 2]⟩

/-- A closure state that has block 2 rendered with content 99. -/
def st2 : IfState Nat := ⟨some 2, some 99⟩

/-- A concrete two-slot registry. -/
def reg0 : PortalRegistry Nat := [(0, some 1), (3, none)]

/-! ## Portal registry lemmas -/

theorem findKeyIdx_cons (p : TypeId × Option β) (rest : PortalRegistry β) (t : TypeId) :
    findKeyIdx t (p :: rest) =
      if p.1 = t then some 0 else (findKeyIdx t rest).map (· + 1) := rfl

theorem keysOf_setContentAt (portals : PortalRegistry β) (pos : Nat) (c : Option β) :
    keysOf (setContentAt portals pos c) = keysOf portals := by
  induction portals generalizing pos with
  | nil => rfl
  | cons p rest ih =>
    cases pos with
    | zero => rfl
    | succ n => simpa [setContentAt, keysOf] using ih n

theorem length_setContentAt (portals : PortalRegistry β) (pos : Nat) (c : Option β) :
    (setContentAt portals pos c).length = portals.length := by
  induction portals generalizing pos with
  | nil => rfl
  | cons p rest ih =>
    cases pos with
    | zero => rfl
    | succ n => simpa [setContentAt] using ih n

theorem findKeyIdx_get (t : TypeId) (portals : PortalRegistry β) (pos : Nat)
    (h : findKeyIdx t portals = some pos) :
    ∃ c, getAt? portals pos = some (t, c) := by
  induction portals generalizing pos with
  | nil => simp [findKeyIdx] at h
  | cons p rest ih =>
    rw [findKeyIdx_cons] at h
    by_cases hk : p.1 = t
    · rw [if_pos hk] at h
      cases h
      exact ⟨p.2, by simp [getAt?, ← hk]⟩
    · rw [if_neg hk, Option.map_eq_some'] at h
      obtain ⟨q, hq, hq2⟩ := h
      subst hq2
      exact ih q hq

theorem findKeyIdx_setContentAt (t : TypeId) (portals : PortalRegistry β)
    (pos : Nat) (c : Option β) :
    findKeyIdx t (setContentAt portals pos c) = findKeyIdx t portals := by
  induction portals generalizing pos with
  | nil => rfl
  | cons p rest ih =>
    cases pos with
    | zero => rfl
    | succ n => simp [setContentAt, findKeyIdx_cons, ih n]

theorem getAt?_setContentAt_self (portals : PortalRegistry β) (pos : Nat)
    (c : Option β) (p : TypeId × Option β) (h : getAt? portals pos = some p) :
    getAt? (setContentAt portals pos c) pos = some (p.1, c) := by
  induction portals generalizing pos with
  | nil => simp [getAt?] at h
  | cons q rest ih =>
    cases pos with
    | zero =>
      cases h
      rfl
    | succ n => exact ih n h

theorem getAt?_setContentAt_ne (portals : PortalRegistry β) (pos j : Nat)
    (c : Option β) (h : pos ≠ j) :
    getAt? (setContentAt portals pos c) j = getAt? portals j := by
  induction portals generalizing pos j with
  | nil => rfl
  | cons q rest ih =>
    cases pos with
    | zero =>
      cases j with
      | zero => exact absurd rfl h
      | succ m => rfl
    | succ n =>
      cases j with
      | zero => rfl
      | succ m => exact ih n m fun hnm => h (by rw [hnm])

theorem findKeyIdx_none_iff (t : TypeId) (portals : PortalRegistry β) :
    findKeyIdx t portals = none ↔ t ∉ keysOf portals := by
  induction portals with
  | nil => simp [findKeyIdx, keysOf]
  | cons p rest ih =>
    rw [findKeyIdx_cons]
    by_cases hk : p.1 = t
    · simp [hk, keysOf]
    · simp [hk, Ne.symm hk, keysOf, Option.map_eq_none', ih]

theorem findKeyIdx_append_self (t : TypeId) (portals : PortalRegistry β)
    (c : Option β) (h : findKeyIdx t portals = none) :
    findKeyIdx t (portals ++ [(t, c)]) = some portals.length := by
  induction portals with
  | nil => simp [findKeyIdx]
  | cons p rest ih =>
    rw [findKeyIdx_cons] at h
    by_cases hk : p.1 = t
    · rw [if_pos hk] at h
      cases h
    · rw [if_neg hk, Option.map_eq_none'] at h
      rw [List.cons_append, findKeyIdx_cons, if_neg hk, ih h]
      rfl

theorem findKeyIdx_append_other (t u : TypeId) (portals : PortalRegistry β)
    (c : Option β) (h : u ≠ t) :
    findKeyIdx u (portals ++ [(t, c)]) = findKeyIdx u portals := by
  induction portals with
  | nil => simp [findKeyIdx, Ne.symm h]
  | cons p rest ih => rw [List.cons_append, findKeyIdx_cons, findKeyIdx_cons, ih]

theorem getAt?_append_left (portals : PortalRegistry β) (x : TypeId × Option β)
    (j : Nat) (h : j < portals.length) :
    getAt? (portals ++ [x]) j = getAt? portals j := by
  induction portals generalizing j with
  | nil => simp at h
  | cons p rest ih =>
    cases j with
    | zero => rfl
    | succ m => exact ih m (by simpa using h)

theorem getAt?_concat_length (portals : PortalRegistry β) (x : TypeId × Option β) :
    getAt? (portals ++ [x]) portals.length = some x := by
  induction portals with
  | nil => rfl
  | cons p rest ih => exact ih

theorem findKeyIdx_lt_length (t : TypeId) (portals : PortalRegistry β) (pos : Nat)
    (h : findKeyIdx t portals = some pos) : pos < portals.length := by
  induction portals generalizing pos with
  | nil => simp [findKeyIdx] at h
  | cons p rest ih =>
    rw [findKeyIdx_cons] at h
    by_cases hk : p.1 = t
    · rw [if_pos hk] at h
      cases h
      simp
    · rw [if_neg hk, Option.map_eq_some'] at h
      obtain ⟨q, hq, hq2⟩ := h
      subst hq2
      simpa using ih q hq

theorem lookupContent_portalInput_self (id : RustValue V) (c : β)
    (portals : PortalRegistry β) :
    lookupContent id.typeId (portalInput id c portals) = some c := by
  unfold portalInput
  cases hf : findKeyIdx id.typeId portals with
  | none =>
    unfold lookupContent
    rw [findKeyIdx_append_self _ _ _ hf]
    simp [getAt?_concat_length]
  | some pos =>
    obtain ⟨d, hd⟩ := findKeyIdx_get _ _ _ hf
    unfold lookupContent
    rw [findKeyIdx_setContentAt, hf]
    simp [getAt?_setContentAt_self _ _ _ _ hd]

theorem portalOutput_snd (id : RustValue V) (portals : PortalRegistry β) :
    (portalOutput id portals).2 = lookupContent id.typeId portals := by
  unfold portalOutput lookupContent
  cases hf : findKeyIdx id.typeId portals with
  | none => simp
  | some pos => simp

theorem lookupContent_portalOutput_self (id : RustValue V)
    (portals : PortalRegistry β) :
    lookupContent id.typeId ((portalOutput id portals).1) = none := by
  unfold portalOutput
  cases hf : findKeyIdx id.typeId portals with
  | none =>
    unfold lookupContent
    rw [findKeyIdx_append_self _ _ _ hf]
    simp [getAt?_concat_length]
  | some pos =>
    obtain ⟨d, hd⟩ := findKeyIdx_get _ _ _ hf
    unfold lookupContent
    rw [findKeyIdx_setContentAt, hf]
    simp [getAt?_setContentAt_self _ _ _ _ hd]

theorem findKeyIdx_portalInput_isSome (id : RustValue V) (c : β)
    (portals : PortalRegistry β) :
    (findKeyIdx id.typeId (portalInput id c portals)).isSome = true := by
  unfold portalInput
  cases hf : findKeyIdx id.typeId portals with
  | none => simp [findKeyIdx_append_self _ _ _ hf]
  | some pos => simp [findKeyIdx_setContentAt, hf]

theorem keysOf_append (portals : PortalRegistry β) (x : TypeId × Option β) :
    keysOf (portals ++ [x]) = keysOf portals ++ [x.1] := by
  simp [keysOf]

theorem keysOf_portalInput (id : RustValue V) (c : β) (portals : PortalRegistry β) :
    keysOf (portalInput id c portals) =
      if id.typeId ∈ keysOf portals then keysOf portals
      else keysOf portals ++ [id.typeId] := by
  unfold portalInput
  cases hf : findKeyIdx id.typeId portals with
  | none =>
    rw [if_neg ((findKeyIdx_none_iff _ _).mp hf)]
    exact keysOf_append _ _
  | some pos =>
    have hmem : id.typeId ∈ keysOf portals := by
      by_contra hmem
      rw [(findKeyIdx_none_iff _ _).mpr hmem] at hf
      cases hf
    rw [if_pos hmem]
    exact keysOf_setContentAt _ _ _

theorem keysOf_portalOutput (id : RustValue V) (portals : PortalRegistry β) :
    keysOf ((portalOutput id portals).1) =
      if id.typeId ∈ keysOf portals then keysOf portals
      else keysOf portals ++ [id.typeId] := by
  unfold portalOutput
  cases hf : findKeyIdx id.typeId portals with
  | none =>
    rw [if_neg ((findKeyIdx_none_iff _ _).mp hf)]
    exact keysOf_append _ _
  | some pos =>
    have hmem : id.typeId ∈ keysOf portals := by
      by_contra hmem
      rw [(findKeyIdx_none_iff _ _).mpr hmem] at hf
      cases hf
    rw [if_pos hmem]
    exact keysOf_setContentAt _ _ _

theorem nodup_keys_extend (ks : List TypeId) (t : TypeId) (h : ks.Nodup) :
    (if t ∈ ks then ks else ks ++ [t]).Nodup := by
  by_cases hm : t ∈ ks
  · simpa [hm] using h
  · simp [hm, List.nodup_append, h]

theorem lookupContent_setContentAt_other (t u : TypeId) (portals : PortalRegistry β)
    (pos : Nat) (c : Option β) (hfind : findKeyIdx t portals = some pos)
    (hne : u ≠ t) :
    lookupContent u (setContentAt portals pos c) = lookupContent u portals := by
  unfold lookupContent
  rw [findKeyIdx_setContentAt]
  cases hu : findKeyIdx u portals with
  | none => rfl
  | some j =>
    obtain ⟨d, hd⟩ := findKeyIdx_get _ _ _ hu
    obtain ⟨e, he⟩ := findKeyIdx_get _ _ _ hfind
    have hne2 : pos ≠ j := by
      intro hh
      rw [hh, hd] at he
      simp at he
      exact hne he.1
    simp [getAt?_setContentAt_ne _ _ _ _ hne2]

theorem lookupContent_portalInput_other (id : RustValue V) (c : β)
    (portals : PortalRegistry β) (u : TypeId) (hne : u ≠ id.typeId) :
    lookupContent u (portalInput id c portals) = lookupContent u portals := by
  unfold portalInput
  cases hf : findKeyIdx id.typeId portals with
  | none =>
    unfold lookupContent
    rw [findKeyIdx_append_other _ _ _ _ hne]
    cases hu : findKeyIdx u portals with
    | none => rfl
    | some j => simp [getAt?_append_left _ _ _ (findKeyIdx_lt_length _ _ _ hu)]
  | some pos => exact lookupContent_setContentAt_other _ _ _ _ _ hf hne

theorem lookupContent_portalOutput_other (id : RustValue V)
    (portals : PortalRegistry β) (u : TypeId) (hne : u ≠ id.typeId) :
    lookupContent u ((portalOutput id portals).1) = lookupContent u portals := by
  unfold portalOutput
  cases hf : findKeyIdx id.typeId portals with
  | none =>
    unfold lookupContent
    rw [findKeyIdx_append_other _ _ _ _ hne]
    cases hu : findKeyIdx u portals with
    | none => rfl
    | some j => simp [getAt?_append_left _ _ _ (findKeyIdx_lt_length _ _ _ hu)]
  | some pos => exact lookupContent_setContentAt_other _ _ _ _ _ hf hne


/-! ## Branch selector lemmas -/

theorem positionFrom_succ (p : IfBlock α → Bool) (i : Nat) (blocks : List (IfBlock α)) :
    positionFrom p (i + 1) blocks = (positionFrom p i blocks).map (· + 1) := by
  induction blocks generalizing i with
  | nil => rfl
  | cons b rest ih =>
    by_cases hb : p b
    · simp [positionFrom, hb]
    · simpa [positionFrom, hb] using ih (i + 1)

theorem positionFrom_lt_length (p : IfBlock α → Bool) (blocks : List (IfBlock α))
    (j : Nat) (h : positionFrom p 0 blocks = some j) : j < blocks.length := by
  induction blocks generalizing j with
  | nil => simp [positionFrom] at h
  | cons b rest ih =>
    rw [positionFrom] at h
    by_cases hb : p b
    · rw [if_pos hb] at h
      cases h
      simp
    · rw [if_neg hb, positionFrom_succ, Option.map_eq_some'] at h
      obtain ⟨q, hq, hq2⟩ := h
      subst hq2
      simpa using ih q hq

theorem countIf_of_isAltsThenElse (rest : List (IfBlock α))
    (h : isAltsThenElse rest = true) : rest.countP IfBlock.is_if = 0 := by
  induction rest with
  | nil => rfl
  | cons b xs ih =>
    cases b with
    | If c => simp [isAltsThenElse] at h
    | ElseIf s c =>
      rw [isAltsThenElse] at h
      simp [List.countP_cons, IfBlock.is_if, ih h]
    | Else c =>
      rw [isAltsThenElse] at h
      cases xs with
      | nil => rfl
      | cons y ys => simp at h

theorem countElse_of_isAltsThenElse (rest : List (IfBlock α))
    (h : isAltsThenElse rest = true) : rest.countP IfBlock.is_else ≤ 1 := by
  induction rest with
  | nil => simp
  | cons b xs ih =>
    cases b with
    | If c => simp [isAltsThenElse] at h
    | ElseIf s c =>
      rw [isAltsThenElse] at h
      simpa [List.countP_cons, IfBlock.is_else] using ih h
    | Else c =>
      rw [isAltsThenElse] at h
      cases xs with
      | nil => simp [List.countP_cons, IfBlock.is_else]
      | cons y ys => simp at h

theorem elsePos_of_isAltsThenElse (rest : List (IfBlock α))
    (h : isAltsThenElse rest = true) (j : Nat)
    (hj : positionFrom IfBlock.is_else 0 rest = some j) : j = rest.length - 1 := by
  induction rest generalizing j with
  | nil => simp [positionFrom] at hj
  | cons b xs ih =>
    cases b with
    | If c => simp [isAltsThenElse] at h
    | ElseIf s c =>
      rw [isAltsThenElse] at h
      rw [positionFrom, if_neg (by simp [IfBlock.is_else]), positionFrom_succ,
          Option.map_eq_some'] at hj
      obtain ⟨q, hq, hq2⟩ := hj
      subst hq2
      have hlt := positionFrom_lt_length _ _ _ hq
      have := ih h q hq
      simp only [List.length_cons]
      omega
    | Else c =>
      rw [isAltsThenElse] at h
      cases xs with
      | nil =>
        rw [positionFrom, if_pos (by simp [IfBlock.is_else])] at hj
        cases hj
        rfl
      | cons y ys => simp at h

theorem isAltsThenElse_of_checks (rest : List (IfBlock α))
    (h1 : rest.countP IfBlock.is_if = 0)
    (h2 : ∀ j, positionFrom IfBlock.is_else 0 rest = some j → j = rest.length - 1) :
    isAltsThenElse rest = true := by
  induction rest with
  | nil => rfl
  | cons b xs ih =>
    cases b with
    | If c => simp [List.countP_cons, IfBlock.is_if] at h1
    | Else c =>
      have h0 := h2 0 (by rw [positionFrom, if_pos (by simp [IfBlock.is_else])])
      simp only [List.length_cons, Nat.add_sub_cancel] at h0
      have hxs : xs = [] := List.length_eq_zero.mp h0.symm
      subst hxs
      rfl
    | ElseIf s c =>
      rw [isAltsThenElse]
      apply ih
      · simpa [List.countP_cons, IfBlock.is_if] using h1
      · intro j hj
        have hlt := positionFrom_lt_length _ _ _ hj
        have := h2 (j + 1)
          (by rw [positionFrom, if_neg (by simp [IfBlock.is_else]), positionFrom_succ, hj]; rfl)
        simp only [List.length_cons] at this
        omega
@[simp] theorem IfBlock.is_if_mk_If (c : Unit → α) : (IfBlock.If c).is_if = true := rfl

@[simp] theorem IfBlock.is_if_mk_ElseIf (s : Nat) (c : Unit → α) :
    (IfBlock.ElseIf s c).is_if = false := rfl

@[simp] theorem IfBlock.is_if_mk_Else (c : Unit → α) : (IfBlock.Else c).is_if = false := rfl

@[simp] theorem IfBlock.is_else_mk_If (c : Unit → α) : (IfBlock.If c).is_else = false := rfl

@[simp] theorem IfBlock.is_else_mk_ElseIf (s : Nat) (c : Unit → α) :
    (IfBlock.ElseIf s c).is_else = false := rfl

@[simp] theorem IfBlock.is_else_mk_Else (c : Unit → α) : (IfBlock.Else c).is_else = true := rfl

@[simp] theorem IfBlock.is_true_mk_If (σ : Nat → Bool) (c : Unit → α) :
    (IfBlock.If c).is_true σ = false := rfl

@[simp] theorem IfBlock.is_true_mk_ElseIf (σ : Nat → Bool) (s : Nat) (c : Unit → α) :
    (IfBlock.ElseIf s c).is_true σ = σ s := rfl

@[simp] theorem IfBlock.is_true_mk_Else (σ : Nat → Bool) (c : Unit → α) :
    (IfBlock.Else c).is_true σ = true := rfl

theorem run_debug_checks_iff_wf (blocks : List (IfBlock α)) :
    run_debug_checks blocks = true ↔ wfBlocks blocks = true := by
  cases blocks with
  | nil => simp [run_debug_checks, wfBlocks]
  | cons b rest =>
    constructor
    · intro h
      simp only [run_debug_checks, List.head?_cons, Bool.and_eq_true, beq_iff_eq,
        decide_eq_true_eq] at h
      obtain ⟨⟨⟨hfirst, hcount⟩, hpos⟩, _hle⟩ := h
      rw [wfBlocks, Bool.and_eq_true]
      refine ⟨hfirst, ?_⟩
      have hb : ∃ c, b = IfBlock.If c := by
        cases b with
        | If c => exact ⟨c, rfl⟩
        | ElseIf s c => simp at hfirst
        | Else c => simp at hfirst
      obtain ⟨c, rfl⟩ := hb
      have hcount0 : rest.countP IfBlock.is_if = 0 := by
        rw [List.countP_cons] at hcount
        simp at hcount
        exact List.countP_eq_zero.mpr fun a ha => by simp [hcount a ha]
      apply isAltsThenElse_of_checks rest hcount0
      intro j hj
      rw [positionFrom, if_neg (by simp), positionFrom_succ, hj] at hpos
      have hlt := positionFrom_lt_length _ _ _ hj
      simp only [Option.map_some', List.length_cons, beq_iff_eq] at hpos
      omega
    · intro h
      rw [wfBlocks, Bool.and_eq_true] at h
      obtain ⟨hfirst, hrest⟩ := h
      simp only [run_debug_checks, List.head?_cons, Bool.and_eq_true, beq_iff_eq,
        decide_eq_true_eq]
      have hb : ∃ c, b = IfBlock.If c := by
        cases b with
        | If c => exact ⟨c, rfl⟩
        | ElseIf s c => simp at hfirst
        | Else c => simp at hfirst
      obtain ⟨c, rfl⟩ := hb
      refine ⟨⟨⟨rfl, ?_⟩, ?_⟩, ?_⟩
      · rw [List.countP_cons]
        simp [countIf_of_isAltsThenElse rest hrest]
      · rw [positionFrom, if_neg (by simp), positionFrom_succ]
        cases hj : positionFrom IfBlock.is_else 0 rest with
        | none => rfl
        | some j =>
          have hlast := elsePos_of_isAltsThenElse rest hrest j hj
          have hlt := positionFrom_lt_length _ _ _ hj
          simp only [Option.map_some', List.length_cons, beq_iff_eq]
          omega
      · rw [List.countP_cons]
        simpa using countElse_of_isAltsThenElse rest hrest

theorem findTrueFrom_eq_spec (σ : Nat → Bool) (rest : List (IfBlock α)) (i : Nat)
    (h : isAltsThenElse rest = true) :
    (findTrueFrom σ i rest).map Prod.fst =
      match findAltFrom σ i rest with
      | some j => some j
      | none => findElseFrom i rest := by
  induction rest generalizing i with
  | nil => rfl
  | cons b xs ih =>
    cases b with
    | If c => simp [isAltsThenElse] at h
    | ElseIf s c =>
      rw [isAltsThenElse] at h
      by_cases hs : σ s
      · simp [findTrueFrom, findAltFrom, hs]
      · simpa [findTrueFrom, findAltFrom, findElseFrom, hs] using ih (i + 1) h
    | Else c =>
      rw [isAltsThenElse] at h
      cases xs with
      | nil => simp [findTrueFrom, findAltFrom, findElseFrom]
      | cons y ys => simp at h

theorem evalPass_last_eq_select (blocks : List (IfBlock α)) (primary : Bool)
    (σ : Nat → Bool) (st : IfState α) (r : PassResult α)
    (h : evalPass blocks primary σ st = some r) :
    r.state.last_rendered_block = codeSelect blocks primary σ := by
  unfold evalPass at h
  unfold codeSelect
  cases primary with
  | true =>
    rw [if_pos rfl] at h
    rw [if_pos rfl]
    split at h
    · next hlast =>
      cases h
      exact hlast
    · split at h
      · cases h
      · cases h
        rfl
  | false =>
    rw [if_neg (by simp)] at h
    rw [if_neg (by simp)]
    split at h
    · next i b heq =>
      split at h
      · next hlast =>
        cases h
        rw [hlast, heq]
        rfl
      · cases h
        rw [heq]
        rfl
    · next heq =>
      cases h
      rw [heq]
      rfl

theorem evalPass_tracked (blocks : List (IfBlock α)) (primary : Bool)
    (σ : Nat → Bool) (st : IfState α) (r : PassResult α)
    (h : evalPass blocks primary σ st = some r) :
    r.tracked = trackedSignals blocks := by
  unfold evalPass at h
  cases primary with
  | true =>
    rw [if_pos rfl] at h
    split at h
    · cases h
      rfl
    · split at h
      · cases h
      · cases h
        rfl
  | false =>
    rw [if_neg (by simp)] at h
    split at h
    · split at h
      · cases h
        rfl
      · cases h
        rfl
    · cases h
      rfl

theorem evalPass_stable (blocks : List (IfBlock α)) (primary : Bool)
    (σ : Nat → Bool) (st : IfState α)
    (hlast : st.last_rendered_block = codeSelect blocks primary σ) :
    evalPass blocks primary σ st =
        some ⟨st, st.child, none, trackedSignals blocks⟩ ∨
      (codeSelect blocks primary σ = none ∧
        evalPass blocks primary σ st =
          some ⟨⟨none, none⟩, none, none, trackedSignals blocks⟩) := by
  unfold codeSelect at *
  unfold evalPass
  cases primary with
  | true =>
    rw [if_pos rfl] at hlast
    rw [if_pos rfl, if_pos hlast]
    exact Or.inl rfl
  | false =>
    rw [if_neg (by simp)] at hlast ⊢
    cases heq : findTrueFrom σ 0 blocks with
    | some p =>
      rw [heq] at hlast
      obtain ⟨i, b⟩ := p
      left
      simp only [Option.map_some'] at hlast
      simp [hlast]
    | none =>
      rw [heq] at hlast
      exact Or.inr ⟨rfl, rfl⟩

theorem evalPass_state_of_select_none (blocks : List (IfBlock α)) (primary : Bool)
    (σ : Nat → Bool) (st : IfState α) (r : PassResult α)
    (h : evalPass blocks primary σ st = some r)
    (hsel : codeSelect blocks primary σ = none) :
    r.state = ⟨none, none⟩ := by
  unfold codeSelect at hsel
  unfold evalPass at h
  cases primary with
  | true =>
    rw [if_pos rfl] at hsel
    cases hsel
  | false =>
    rw [if_neg (by simp)] at hsel h
    cases heq : findTrueFrom σ 0 blocks with
    | some p =>
      rw [heq] at hsel
      cases hsel
    | none =>
      rw [heq] at h
      cases h
      rfl

theorem length_portalInput_mem (id : RustValue V) (c : β) (portals : PortalRegistry β)
    (h : id.typeId ∈ keysOf portals) :
    (portalInput id c portals).length = portals.length := by
  unfold portalInput
  cases hf : findKeyIdx id.typeId portals with
  | none => exact absurd h ((findKeyIdx_none_iff _ _).mp hf)
  | some pos => exact length_setContentAt _ _ _

/-! ## Claims -/

/-- C1: for every well-formed branch set and every valuation, the branch
selector selects exactly the branch the spec describes: Primary (index 0) when
the primary condition is true, otherwise the first Alternative in declaration
order whose condition is true, otherwise the Fallback when present, otherwise
nothing — `codeSelect` (the selection performed by the render closure) agrees
with `selectSpec` (the spec's rule). -/
theorem branch_selection_matches_spec (blocks : List (IfBlock α)) (primary : Bool)
    (σ : Nat → Bool) (hwf : wfBlocks blocks = true) :
    codeSelect blocks primary σ = selectSpec blocks primary σ := by
  cases blocks with
  | nil => simp [wfBlocks] at hwf
  | cons b rest =>
    rw [wfBlocks, Bool.and_eq_true] at hwf
    obtain ⟨hb, hrest⟩ := hwf
    cases b with
    | ElseIf s c => simp at hb
    | Else c => simp at hb
    | If c =>
      cases primary with
      | true => rfl
      | false => exact findTrueFrom_eq_spec σ rest 1 hrest

/-- Witness for C1, on the spec's own scenario: Primary=false,
Alternative₁=false, Alternative₂=true, Fallback present — block 2 (the second
Alternative) is selected, not the Fallback at index 3. -/
theorem branch_selection_matches_spec_witness :
    wfBlocks blocks0 = true ∧
    codeSelect blocks0 false sigma0 = selectSpec blocks0 false sigma0 ∧
    codeSelect blocks0 false sigma0 = some 2 :=
  ⟨rfl, branch_selection_matches_spec blocks0 false sigma0 rfl, rfl⟩

/-- C3: on every evaluation pass, the tracked-signal set equals
`trackedSignals blocks` — independent of the valuation, the closure state and
the selected branch — and for a well-formed branch set it contains every
`ElseIf` block's signal. -/
theorem all_alternative_signals_tracked (blocks : List (IfBlock α)) (primary : Bool)
    (σ : Nat → Bool) (st : IfState α) (r : PassResult α)
    (h : evalPass blocks primary σ st = some r) :
    r.tracked = trackedSignals blocks ∧
    (wfBlocks blocks = true →
      ∀ s c, IfBlock.ElseIf s c ∈ blocks → s ∈ r.tracked) := by
  have htr := evalPass_tracked blocks primary σ st r h
  refine ⟨htr, ?_⟩
  intro hwf s c hmem
  rw [htr]
  cases blocks with
  | nil => cases hmem
  | cons b rest =>
    rw [wfBlocks, Bool.and_eq_true] at hwf
    rcases List.mem_cons.mp hmem with hb | hr
    · rw [← hb] at hwf
      simp at hwf
    · show s ∈ trackedSignals (b :: rest)
      rw [trackedSignals]
      simp only [List.drop_succ_cons, List.drop_zero]
      exact List.mem_filterMap.mpr ⟨IfBlock.ElseIf s c, hr, rfl⟩

/-- Witness for C3: running `blocks0` under `sigma0` (which selects block 2),
the pass tracked signals 1 and 2 — in particular signal 2, an `ElseIf` beyond
the scan's stopping point on other valuations. -/
theorem all_alternative_signals_tracked_witness :
    passResult0.tracked = trackedSignals blocks0 ∧ 2 ∈ passResult0.tracked :=
  ⟨(all_alternative_signals_tracked blocks0 false sigma0 ⟨none, none⟩ passResult0 rfl).1,
    (all_alternative_signals_tracked blocks0 false sigma0 ⟨none, none⟩ passResult0 rfl).2 rfl 2
      (fun _ => 12)
      (List.mem_cons_of_mem _ (List.mem_cons_of_mem _ (List.mem_cons_self _ _)))⟩

/-- C4: when the newly selected branch index equals the previously selected
one, the pass reuses the previous content — state unchanged, view equal to the
stored child, no `render()` invocation — and re-running a pass with unchanged
condition values never invokes `render()` again (the second pass leaves the
state fixed and reuses the stored child). -/
theorem rerender_suppression (blocks : List (IfBlock α)) (primary : Bool)
    (σ : Nat → Bool) (st : IfState α) (r : PassResult α)
    (h : evalPass blocks primary σ st = some r) :
    (∀ i, st.last_rendered_block = some i → codeSelect blocks primary σ = some i →
      r = ⟨st, st.child, none, trackedSignals blocks⟩) ∧
    (∃ r2, evalPass blocks primary σ r.state = some r2 ∧
      r2.rendered = none ∧ r2.state = r.state ∧ r2.view = r.state.child) := by
  constructor
  · intro i hlast hsel
    rw [codeSelect] at hsel
    unfold evalPass at h
    cases primary with
    | true =>
      rw [if_pos rfl] at hsel h
      cases hsel
      rw [if_pos hlast] at h
      cases h
      rfl
    | false =>
      rw [if_neg (by simp)] at hsel h
      split at h
      · next j b heq =>
        rw [heq, Option.map_some'] at hsel
        cases hsel
        split at h
        · cases h
          rfl
        · next hne => exact absurd hlast hne
      · next heq =>
        rw [heq] at hsel
        cases hsel
  · rcases evalPass_stable blocks primary σ r.state
        (evalPass_last_eq_select blocks primary σ st r h) with h2 | ⟨hnone, h2⟩
    · exact ⟨_, h2, rfl, rfl, rfl⟩
    · have hst := evalPass_state_of_select_none blocks primary σ st r h hnone
      refine ⟨_, h2, rfl, ?_, ?_⟩
      · rw [hst]
      · rw [hst]

/-- Witness for C4: with block 2 already rendered (state `st2`, stored content
99) and the conditions still selecting block 2, the pass returns the stored
content and invokes no `render()`. -/
theorem rerender_suppression_witness :
    (⟨st2, some 99, none, [1, 2]⟩ : PassResult Nat) =
      ⟨st2, st2.child, none, trackedSignals blocks0⟩ ∧
    evalPass blocks0 false sigma0 st2 = some ⟨st2, some 99, none, [1, 2]⟩ :=
  ⟨(rerender_suppression blocks0 false sigma0 st2 ⟨st2, some 99, none, [1, 2]⟩ rfl).1 2
      rfl rfl,
    rfl⟩

/-- C7: with debug assertions on, the `If` component accepts a branch set iff
it is well formed — no `Then` first, more than one `Then`, an `Else` that is
not last, or more than one `Else` all fail the checks — while in release
builds the validation is absent and every branch set is accepted. -/
theorem debug_validation_iff_wellformed (blocks : List (IfBlock α)) :
    (ifInit true blocks = some blocks ↔ wfBlocks blocks = true) ∧
    ifInit false blocks = some blocks := by
  refine ⟨?_, rfl⟩
  rw [← run_debug_checks_iff_wf]
  unfold ifInit
  cases h : run_debug_checks blocks with
  | true => simp
  | false => simp

/-- C2: take semantics of `PortalOutput` — a consume after a publish of the
same key yields the published content; a second consume with no intervening
publish yields empty content; and a consume of a key with no slot yields empty
content, lazily creating an empty slot instead of erroring. -/
theorem portal_take_semantics (id : RustValue V) (R : β) (portals : PortalRegistry β) :
    (portalOutput id (portalInput id R portals)).2 = some R ∧
    (portalOutput id ((portalOutput id (portalInput id R portals)).1)).2 = none ∧
    (findKeyIdx id.typeId portals = none →
      (portalOutput id portals).2 = none ∧
      (portalOutput id portals).1 = portals ++ [(id.typeId, none)]) := by
  refine ⟨?_, ?_, ?_⟩
  · rw [portalOutput_snd, lookupContent_portalInput_self]
  · rw [portalOutput_snd, lookupContent_portalOutput_self]
  · intro h
    unfold portalOutput
    rw [h]
    exact ⟨rfl, rfl⟩

/-- Witness for C2 at key 0 on the empty registry: publish 42 then consume
yields 42; the re-consume yields empty; consuming a never-published key yields
empty and creates an empty slot. -/
theorem portal_take_semantics_witness :
    (portalOutput (⟨0, 0⟩ : RustValue Nat) (portalInput ⟨0, 0⟩ (42 : Nat) [])).2 = some 42 ∧
    (portalOutput (⟨0, 0⟩ : RustValue Nat)
        ((portalOutput (⟨0, 0⟩ : RustValue Nat) (portalInput ⟨0, 0⟩ (42 : Nat) [])).1)).2 =
      none ∧
    (portalOutput (⟨0, 0⟩ : RustValue Nat) ([] : PortalRegistry Nat)).2 = none ∧
    (portalOutput (⟨0, 0⟩ : RustValue Nat) ([] : PortalRegistry Nat)).1 = [(0, none)] :=
  ⟨(portal_take_semantics ⟨0, 0⟩ 42 []).1,
    (portal_take_semantics ⟨0, 0⟩ 42 []).2.1,
    ((portal_take_semantics ⟨0, 0⟩ 42 []).2.2 rfl).1,
    ((portal_take_semantics ⟨0, 0⟩ 42 []).2.2 rfl).2⟩

/-- C5: with no `PortalProvider` in scope, both `PortalInput` and
`PortalOutput` abort with the same fixed descriptive message; with a provider
present both operations succeed unconditionally. -/
theorem portal_missing_provider (id : RustValue V) (c : β) (portals : PortalRegistry β) :
    portalInputComponent none id c = .error CONTEXT_NOT_FOUND_ERROR_MESSAGE ∧
    (portalOutputComponent none id : Except String (PortalRegistry β × Option β)) =
      .error CONTEXT_NOT_FOUND_ERROR_MESSAGE ∧
    portalInputComponent (some portals) id c = .ok (portalInput id c portals) ∧
    portalOutputComponent (some portals) id = .ok (portalOutput id portals) :=
  ⟨rfl, rfl, rfl, rfl⟩

/-- C6: publishing and consuming preserve key uniqueness of the registry;
publishing to an existing key keeps the key list and the registry length
unchanged; and a repeated publish replaces the slot content in place, without
growing the registry. -/
theorem portal_registry_no_duplicate_keys (portals : PortalRegistry β)
    (id : RustValue V) (c d : β) :
    ((keysOf portals).Nodup →
      (keysOf (portalInput id c portals)).Nodup ∧
      (keysOf ((portalOutput id portals).1)).Nodup) ∧
    (id.typeId ∈ keysOf portals →
      keysOf (portalInput id c portals) = keysOf portals ∧
      (portalInput id c portals).length = portals.length) ∧
    keysOf (portalInput id d (portalInput id c portals)) =
      keysOf (portalInput id c portals) ∧
    (portalInput id d (portalInput id c portals)).length =
      (portalInput id c portals).length ∧
    lookupContent id.typeId (portalInput id d (portalInput id c portals)) = some d := by
  have hmem2 : id.typeId ∈ keysOf (portalInput id c portals) := by
    have hs := findKeyIdx_portalInput_isSome id c portals
    by_contra hm
    rw [(findKeyIdx_none_iff _ _).mpr hm] at hs
    cases hs
  refine ⟨?_, ?_, ?_, length_portalInput_mem id d _ hmem2,
    lookupContent_portalInput_self id d (portalInput id c portals)⟩
  · intro hnd
    rw [keysOf_portalInput, keysOf_portalOutput]
    exact ⟨nodup_keys_extend _ _ hnd, nodup_keys_extend _ _ hnd⟩
  · intro hmem
    exact ⟨by rw [keysOf_portalInput, if_pos hmem], length_portalInput_mem id c portals hmem⟩
  · rw [keysOf_portalInput, if_pos hmem2]

/-- Witness for C6 on the concrete registry `reg0` (keys 0 and 3): its keys
are duplicate-free and stay so after a publish to key 0, which also leaves the
key list and length unchanged; republishing replaces the content. -/
theorem portal_registry_no_duplicate_keys_witness :
    (keysOf (portalInput (⟨0, 7⟩ : RustValue Nat) (5 : Nat) reg0)).Nodup ∧
    keysOf (portalInput (⟨0, 7⟩ : RustValue Nat) (5 : Nat) reg0) = keysOf reg0 ∧
    (portalInput (⟨0, 7⟩ : RustValue Nat) (5 : Nat) reg0).length = reg0.length ∧
    lookupContent 0
        (portalInput ⟨0, 7⟩ (6 : Nat) (portalInput (⟨0, 7⟩ : RustValue Nat) (5 : Nat) reg0)) =
      some 6 :=
  ⟨((portal_registry_no_duplicate_keys reg0 ⟨0, 7⟩ 5 6).1 (by decide)).1,
    ((portal_registry_no_duplicate_keys reg0 ⟨0, 7⟩ 5 6).2.1 (by decide)).1,
    ((portal_registry_no_duplicate_keys reg0 ⟨0, 7⟩ 5 6).2.1 (by decide)).2,
    (portal_registry_no_duplicate_keys reg0 ⟨0, 7⟩ 5 6).2.2.2.2⟩

/-- C8: the claim fails on the code.  A `PortalOutput` body runs exactly once
at mount — it returns a plain view and reads the slot through `update`, which
does not subscribe — so publish/consume ordering within a pass is visible:
mounting the consume before the publish renders empty content, and the
published content sits undisplayed in the registry, whereas the publish-first
order does deliver the content. -/
theorem portal_output_fixed_at_mount :
    runOps [.consume ⟨0, 0⟩, .publish ⟨0, 0⟩ 42] ([] : PortalRegistry Nat) =
      ([(0, some 42)], [none]) ∧
    runOps [.publish ⟨0, 0⟩ 42, .consume ⟨0, 0⟩] ([] : PortalRegistry Nat) =
      ([(0, none)], [some 42]) :=
  ⟨rfl, rfl⟩

/-- C9: operations on distinct keys are independent — publishing to one key
leaves the other key's slot content, and the result of consuming it,
unchanged; consuming one key likewise leaves the other key's slot content
unchanged. -/
theorem portal_distinct_keys_independent (id1 id2 : RustValue V) (c : β)
    (portals : PortalRegistry β) (hne : id2.typeId ≠ id1.typeId) :
    lookupContent id2.typeId (portalInput id1 c portals) =
      lookupContent id2.typeId portals ∧
    (portalOutput id2 (portalInput id1 c portals)).2 = (portalOutput id2 portals).2 ∧
    lookupContent id2.typeId ((portalOutput id1 portals).1) =
      lookupContent id2.typeId portals := by
  refine ⟨lookupContent_portalInput_other id1 c portals id2.typeId hne, ?_,
    lookupContent_portalOutput_other id1 portals id2.typeId hne⟩
  rw [portalOutput_snd, portalOutput_snd,
    lookupContent_portalInput_other id1 c portals id2.typeId hne]

/-- Witness for C9 with keys 1 and 2: publishing 4 to key 1 leaves key 2's
slot (holding 9) and the result of consuming key 2 unchanged. -/
theorem portal_distinct_keys_independent_witness :
    lookupContent 2 (portalInput (⟨1, 0⟩ : RustValue Nat) (4 : Nat) [(2, some 9)]) =
      lookupContent 2 [(2, some 9)] ∧
    (portalOutput (⟨2, 0⟩ : RustValue Nat)
        (portalInput (⟨1, 0⟩ : RustValue Nat) (4 : Nat) [(2, some 9)])).2 =
      (portalOutput (⟨2, 0⟩ : RustValue Nat) [(2, some 9)]).2 ∧
    lookupContent 2 ((portalOutput (⟨1, 0⟩ : RustValue Nat) [(2, some 9)]).1) =
      lookupContent 2 [(2, some 9)] :=
  portal_distinct_keys_independent ⟨1, 0⟩ ⟨2, 0⟩ 4 [(2, some 9)] (by decide)

/-- C10: portal keys match by runtime type identity only — two id values with
the same `TypeId` address the same slot, so the payload value is irrelevant to
both publish and consume, and content published with one value of a type is
delivered to a consume using any other value of that type. -/
theorem portal_keys_matched_by_type_identity (t : TypeId) (a b : V) (c : β)
    (portals : PortalRegistry β) :
    portalInput ⟨t, a⟩ c portals = portalInput ⟨t, b⟩ c portals ∧
    portalOutput ⟨t, a⟩ portals = portalOutput ⟨t, b⟩ portals ∧
    (portalOutput ⟨t, b⟩ (portalInput ⟨t, a⟩ c portals)).2 = some c :=
  ⟨rfl, rfl, by
    rw [portalOutput_snd]
    exact lookupContent_portalInput_self ⟨t, a⟩ c portals⟩

end LeptosDeclarative
